import Mathlib

/-!
Verification of `dockersshell.go` (sivel/dockersshell) against its
natural-language specification.

The Go program is shallowly embedded below:
* `Config` / `getconfig` model the YAML configuration loader
  (`getconfig`, lines 43-56).  File-system and YAML-parser behaviour are
  abstracted into a `FileState`: on a read error the built-in defaults
  string is unmarshalled; otherwise the file's text is unmarshalled and
  the unmarshal error is discarded, so a malformed file leaves the
  zero-valued `Config` untouched (goyaml leaves the target unchanged
  when parsing fails).
* `scanPool` models the endpoint loop of `main` (lines 105-154) in
  interactive mode: `Smallest := 1024`, skip on client/list error,
  break on a zero container count, record a strictly smaller count.
  It returns the final state, the number of pool entries processed,
  and whether the loop exited via `break`.
* `wait` models the readiness poller (lines 69-82): a 20-byte buffer
  allocated once before the loop, at most 60 dial attempts, each
  successful read overwriting a prefix of the same buffer, success when
  the read errors nil and the whole buffer contains "SSH".
* `splitDash`, `parseInt64L`, `nameCheck`, `reapDecide` model the
  reaper's per-container name check and age check (lines 116-135).
* `mainTail` models the tail of `main` after endpoint selection
  (lines 182-201) as an event trace: inspect (error printed, not
  fatal), port lookup, readiness wait, ssh session (`connect`,
  lines 58-67, which calls `log.Fatal` on a session error), then stop
  and remove.
-/

/-- `Config` struct (lines 36-41): endpoints, image, user, max_age. -/
structure Config where
  endpoints : List String
  image : String
  user : String
  max_age : Int
deriving DecidableEq, Repr

/-- The defaults string of `getconfig` (line 46), unmarshalled. -/
def defaultConfig : Config :=
  { endpoints := ["http://127.0.0.1:4243"], image := "ssh", user := "ubuntu", max_age := 86400 }

/-- Go's zero value for `Config` (`var config Config`, line 44). -/
def zeroConfig : Config := { endpoints := [], image := "", user := "", max_age := 0 }

/-- Abstract state of `/etc/dockersshell.yaml` as `getconfig` observes it:
missing (ReadFile errors), present but malformed (Unmarshal errors), or
well formed with parsed content `c`. -/
inductive FileState where
  | missing
  | malformed
  | wellFormed (c : Config)

/-- `getconfig` (lines 43-56).  On a read error the defaults string is
unmarshalled; otherwise the file text is unmarshalled with the error
ignored, so malformed content leaves the zero-valued struct. -/
def getconfig : FileState → Config
  | FileState.missing => defaultConfig
  | FileState.malformed => zeroConfig
  | FileState.wellFormed c => c

/-- Outcome of querying one endpoint in the loop of `main`:
`docker.NewClient` fails, `ListContainers` fails, or a list of running
containers whose length is `n`. -/
inductive EndpointResult where
  | connectFail
  | listFail
  | containers (n : Nat)
deriving DecidableEq, Repr

/-- The selection state of `main`: `Endpoint` (initially `""`) and
`Smallest` (initially `1024`), lines 85-87. -/
structure SelState where
  endpoint : String
  smallest : Nat
deriving DecidableEq, Repr

/-- Initial selection state: `var Endpoint string; Smallest := 1024`. -/
def initSel : SelState := { endpoint := "", smallest := 1024 }

/-- The endpoint loop of `main` in interactive mode (lines 105-146,
`CleanUp = false`).  Returns the final state, the number of pool
entries processed, and whether the loop exited via `break`. -/
def scanPool : SelState → List (String × EndpointResult) → SelState × Nat × Bool
  | st, [] => (st, 0, false)
  | st, e :: rest =>
    match e.2 with
    | EndpointResult.connectFail =>
      let r := scanPool st rest
      (r.1, r.2.1 + 1, r.2.2)
    | EndpointResult.listFail =>
      let r := scanPool st rest
      (r.1, r.2.1 + 1, r.2.2)
    | EndpointResult.containers n =>
      if n = 0 then ({ st with endpoint := e.1 }, 1, true)
      else if n < st.smallest then
        let r := scanPool { endpoint := e.1, smallest := n } rest
        (r.1, r.2.1 + 1, r.2.2)
      else
        let r := scanPool st rest
        (r.1, r.2.1 + 1, r.2.2)

/-- Whether an endpoint query result is "reachable and listable",
i.e. produced a container list. -/
def listable : EndpointResult → Bool
  | EndpointResult.containers _ => true
  | _ => false

example : scanPool initSel [("a", EndpointResult.containers 5),
    ("b", EndpointResult.containers 0), ("c", EndpointResult.containers 3)] =
    ({ endpoint := "b", smallest := 5 }, 2, true) := by decide

example : (scanPool initSel [("a", EndpointResult.containers 1024)]).1.endpoint = "" := by decide

/-! ## Readiness waiter (`wait`, lines 69-82) -/

/-- The result of `bufio.NewReader(conn).Read(buf)` on one attempt whose
dial succeeded: `ok` is `err == nil`, `bytes` are the bytes written into
the front of `buf` (`n` of them, `n ≤ len(buf)`). -/
structure ReadOutcome where
  ok : Bool
  bytes : List Char
deriving DecidableEq, Repr

/-- One iteration's network outcome: `net.Dial` fails, or succeeds with
a read outcome. -/
inductive Attempt where
  | dialFail
  | dialOk (r : ReadOutcome)
deriving DecidableEq, Repr

/-- `Read` writes its delivered bytes over the front of the buffer,
leaving the rest of the buffer unchanged. -/
def writeBuf (buf newBytes : List Char) : List Char :=
  (newBytes ++ buf.drop newBytes.length).take buf.length

/-- `buf := make([]byte, 20)` (line 70): 20 zero bytes, allocated once
before the loop. -/
def initBuf : List Char := List.replicate 20 (Char.ofNat 0)

/-- The banner substring checked by `strings.Contains(string(buf), "SSH")`. -/
def sshPat : List Char := ['S', 'S', 'H']

/-- Whether `pat` is a prefix of the list, as a boolean. -/
def hasPrefixL : List Char → List Char → Bool
  | _, [] => true
  | [], _ :: _ => false
  | a :: as, b :: bs => a == b && hasPrefixL as bs

/-- `strings.Contains`: whether `pat` occurs as a contiguous substring. -/
def containsSub (pat : List Char) : List Char → Bool
  | [] => pat.isEmpty
  | c :: rest => hasPrefixL (c :: rest) pat || containsSub pat rest

/-- The polling loop body of `wait`: given the current buffer and the
remaining attempts, return the zero-based index of the iteration that
returned, or `none` if the loop exhausted its attempts.  On a
successful dial the read mutates the shared buffer whether or not the
banner check passes. -/
def waitGo : List Char → List Attempt → Option Nat
  | _, [] => none
  | buf, Attempt.dialFail :: rest => (waitGo buf rest).map (· + 1)
  | buf, Attempt.dialOk r :: rest =>
    let buf' := writeBuf buf r.bytes
    if r.ok && containsSub sshPat buf' then some 0
    else (waitGo buf' rest).map (· + 1)

/-- `wait` (lines 69-82): at most 60 iterations (`for i := 0; i < 60`)
over the given attempt outcomes, starting from the fresh zero buffer.
`some i` means the function returned on iteration `i`; `none` means the
loop completed and `log.Fatal` runs. -/
def wait (attempts : List Attempt) : Option Nat :=
  waitGo initBuf (attempts.take 60)

/-- The `log.Fatal` message of `wait` (line 81). -/
def waitFatalMsg (host port : String) : String :=
  host ++ ":" ++ port ++ " never became available"

/-- Buffer contents immediately before iteration `j`, starting from
`buf`. -/
def bufAt : List Char → List Attempt → Nat → List Char
  | buf, _, 0 => buf
  | buf, [], _ + 1 => buf
  | buf, Attempt.dialFail :: rest, j + 1 => bufAt buf rest j
  | buf, Attempt.dialOk r :: rest, j + 1 => bufAt (writeBuf buf r.bytes) rest j

/-- Iteration `j` is the one on which `wait`'s return condition holds:
the dial succeeded, the read's error was nil, and after the read the
shared buffer contains "SSH". -/
def goodAt (buf : List Char) (l : List Attempt) (j : Nat) : Prop :=
  ∃ r, l.get? j = some (Attempt.dialOk r) ∧ r.ok = true ∧
    containsSub sshPat (writeBuf (bufAt buf l j) r.bytes) = true

/-- The per-attempt success condition as the specification words it:
the connection succeeded and this attempt's own read succeeded yielding
bytes that contain "SSH". -/
def attemptReadHasSSH : Attempt → Bool
  | Attempt.dialFail => false
  | Attempt.dialOk r => r.ok && containsSub sshPat r.bytes

/-- Bytes delivered by an attempt's own read (empty when the dial failed). -/
def attemptBytes : Attempt → List Char
  | Attempt.dialFail => []
  | Attempt.dialOk r => r.bytes

example : wait [Attempt.dialOk { ok := true, bytes := ['S', 'S', 'H', '-', '2'] }] = some 0 := by
  decide

example : wait [Attempt.dialFail, Attempt.dialOk { ok := true, bytes := ['S', 'S', 'H'] }] =
    some 1 := by decide

example : wait [Attempt.dialOk { ok := false, bytes := ['S', 'S', 'H'] }] = none := by decide

/-- First attempt of the stale-buffer scenario: the dial and read both
succeed and fill the whole buffer, ending in "SH" but containing no
"SSH". -/
def stale0 : Attempt :=
  Attempt.dialOk { ok := true, bytes := List.replicate 18 'A' ++ ['S', 'H'] }

/-- Second attempt of the stale-buffer scenario: the dial and read both
succeed, delivering 18 bytes ending in "S"; combined with the stale
"SH" left at positions 18-19 the buffer now reads "...BSSH". -/
def stale1 : Attempt :=
  Attempt.dialOk { ok := true, bytes := List.replicate 17 'B' ++ ['S'] }

/-- The two-attempt stale-buffer run. -/
def staleAttempts : List Attempt := [stale0, stale1]

example : wait staleAttempts = some 1 := by decide
example : containsSub sshPat (attemptBytes stale0) = false := by decide
example : containsSub sshPat (attemptBytes stale1) = false := by decide

/-! ## Reaper (`CleanUp` branch of `main`, lines 116-135) -/

/-- A listed container as the reaper sees it: engine id and name list. -/
structure Container where
  id : String
  names : List String
deriving DecidableEq, Repr

/-- `strings.Split(s, "-")`: split on every hyphen; the empty string
yields one empty part. -/
def splitDash : List Char → List (List Char)
  | [] => [[]]
  | '-' :: rest => [] :: splitDash rest
  | c :: rest =>
    match splitDash rest with
    | [] => [[c]]
    | p :: ps => (c :: p) :: ps

/-- One decimal digit of `strconv.ParseInt`'s base-10 scan. -/
def decDigit : Char → Option Nat :=
  fun c => if 48 ≤ c.toNat ∧ c.toNat ≤ 57 then some (c.toNat - 48) else none

/-- Accumulate base-10 digits; fails on any non-digit. -/
def decNatCore : Nat → List Char → Option Nat
  | acc, [] => some acc
  | acc, c :: cs =>
    match decDigit c with
    | some d => decNatCore (acc * 10 + d) cs
    | none => none

/-- A non-empty all-digit string's value. -/
def decNat : List Char → Option Nat
  | [] => none
  | cs => decNatCore 0 cs

/-- `strconv.ParseInt(s, 10, 64)`: optional single sign, then at least
one decimal digit, value within the signed 64-bit range; `none` models
a non-nil error. -/
def parseInt64L : List Char → Option Int
  | [] => none
  | '+' :: rest =>
    (decNat rest).bind fun n => if (n : Int) ≤ 2 ^ 63 - 1 then some (n : Int) else none
  | '-' :: rest =>
    (decNat rest).bind fun n => if (n : Int) ≤ 2 ^ 63 then some (-(n : Int)) else none
  | cs =>
    (decNat cs).bind fun n => if (n : Int) ≤ 2 ^ 63 - 1 then some (n : Int) else none

/-- The reaper's name check (lines 121-125): split the single name on
`"-"`, require exactly two parts, and parse the second as a base-10
64-bit integer; `some created` is the parsed timestamp. -/
def nameCheck (name : String) : Option Int :=
  match splitDash name.data with
  | [_, second] => parseInt64L second
  | _ => none

/-- What the reaper does with one listed container. -/
inductive ReapAction where
  | skip
  | reap
deriving DecidableEq, Repr

/-- The reaper's per-container decision (lines 117-135): skip unless the
container has exactly one name, the name check yields a timestamp
`created`, `config.MaxAge != 0`, and `now - created > MaxAge`; only
then stop and remove. -/
def reapDecide (maxAge : Int) (now : Int) (c : Container) : ReapAction :=
  match c.names with
  | [single] =>
    match nameCheck single with
    | some created =>
      if maxAge ≠ 0 ∧ now - created > maxAge then ReapAction.reap else ReapAction.skip
    | none => ReapAction.skip
  | _ => ReapAction.skip

example : nameCheck "alice-1700000000" = some 1700000000 := by decide
example : nameCheck "alice" = none := by decide
example : nameCheck "alice-1700000000-extra" = none := by decide
example : nameCheck "alice-abc" = none := by decide

/-! ## Tail of `main` after endpoint selection (lines 182-201) -/

/-- Observable events of the post-selection sequence of `main`. -/
inductive Event where
  | inspectFailureReported
  | portLookup
  | waitCalled
  | sshRun
  | sshFailureFatal
  | stopCalled
  | removeCalled
  | exitZero
  | fatalExit
deriving DecidableEq, Repr

/-- Success or failure of the external calls made by the tail of
`main`: `InspectContainer`, the ssh session (`cmd.Run` in `connect`),
`StopContainer`, `RemoveContainer`.  The readiness wait is modelled
separately by `wait` and assumed returned here. -/
structure TailInputs where
  inspectOk : Bool
  sshOk : Bool
  stopOk : Bool
  removeOk : Bool
deriving DecidableEq, Repr

/-- Event trace of `main` from the `InspectContainer` call to process
exit (lines 182-201).  An inspect error is printed with `fmt.Printf`
and control continues to the port lookup (line 186).  A failing ssh
session makes `connect` call `log.Fatal` (line 65), so the process
exits before `StopContainer`/`RemoveContainer`.  A failing stop or
remove is fatal after the call. -/
def mainTail (inp : TailInputs) : List Event :=
  (if inp.inspectOk then [] else [Event.inspectFailureReported]) ++
    [Event.portLookup, Event.waitCalled, Event.sshRun] ++
    if inp.sshOk then
      [Event.stopCalled] ++
        if inp.stopOk then
          [Event.removeCalled] ++
            (if inp.removeOk then [Event.exitZero] else [Event.fatalExit])
        else [Event.fatalExit]
    else [Event.sshFailureFatal, Event.fatalExit]

example : mainTail { inspectOk := true, sshOk := false, stopOk := true, removeOk := true } =
    [Event.portLookup, Event.waitCalled, Event.sshRun, Event.sshFailureFatal,
      Event.fatalExit] := by decide

/-! ## Lemmas about the endpoint scan -/

/-- `Smallest` never increases during the scan. -/
theorem scanPool_smallest_le (pool : List (String × EndpointResult)) :
    ∀ st : SelState, (scanPool st pool).1.smallest ≤ st.smallest := by
  induction pool with
  | nil => intro st; simp [scanPool]
  | cons e rest ih =>
    intro st
    rcases e with ⟨a, res⟩
    cases res with
    | connectFail => simpa [scanPool] using ih st
    | listFail => simpa [scanPool] using ih st
    | containers n =>
      by_cases h0 : n = 0
      · simp [scanPool, h0]
      · by_cases hlt : n < st.smallest
        · simp only [scanPool, h0, hlt, if_false, if_true, if_neg, if_pos]
          exact le_trans (ih { endpoint := a, smallest := n }) hlt.le
        · simpa [scanPool, h0, hlt] using ih st

/-- If the scan exited via `break`, the selected endpoint is one that
reported zero containers. -/
theorem scanPool_break_mem (pool : List (String × EndpointResult)) :
    ∀ st : SelState, (scanPool st pool).2.2 = true →
      ((scanPool st pool).1.endpoint, EndpointResult.containers 0) ∈ pool := by
  induction pool with
  | nil => intro st h; simp [scanPool] at h
  | cons e rest ih =>
    intro st h
    rcases e with ⟨a, res⟩
    cases res with
    | connectFail =>
      simp only [scanPool] at h ⊢
      exact List.mem_cons_of_mem _ (ih st h)
    | listFail =>
      simp only [scanPool] at h ⊢
      exact List.mem_cons_of_mem _ (ih st h)
    | containers n =>
      by_cases h0 : n = 0
      · subst h0
        simp [scanPool]
      · by_cases hlt : n < st.smallest
        · simp only [scanPool, h0, hlt, if_neg, if_pos, if_false] at h ⊢
          exact List.mem_cons_of_mem _ (ih { endpoint := a, smallest := n } h)
        · simp only [scanPool, h0, hlt, if_neg, if_false] at h ⊢
          exact List.mem_cons_of_mem _ (ih st h)

/-- If the scan did not `break`, either the state is untouched or the
selected endpoint is one whose reported count equals the final
`Smallest`, which is strictly below the initial `Smallest`. -/
theorem scanPool_nobreak_state (pool : List (String × EndpointResult)) :
    ∀ st : SelState, (scanPool st pool).2.2 = false →
      (scanPool st pool).1 = st ∨
      ∃ n, ((scanPool st pool).1.endpoint, EndpointResult.containers n) ∈ pool ∧
        (scanPool st pool).1.smallest = n ∧ n < st.smallest := by
  induction pool with
  | nil => intro st _; left; simp [scanPool]
  | cons e rest ih =>
    intro st h
    rcases e with ⟨a, res⟩
    cases res with
    | connectFail =>
      simp only [scanPool] at h ⊢
      rcases ih st h with h1 | ⟨n, hmem, hsm, hlt⟩
      · left; exact h1
      · right; exact ⟨n, List.mem_cons_of_mem _ hmem, hsm, hlt⟩
    | listFail =>
      simp only [scanPool] at h ⊢
      rcases ih st h with h1 | ⟨n, hmem, hsm, hlt⟩
      · left; exact h1
      · right; exact ⟨n, List.mem_cons_of_mem _ hmem, hsm, hlt⟩
    | containers n =>
      by_cases h0 : n = 0
      · simp [scanPool, h0] at h
      · by_cases hlt : n < st.smallest
        · simp only [scanPool, h0, hlt, if_neg, if_pos, if_false] at h ⊢
          rcases ih { endpoint := a, smallest := n } h with h1 | ⟨m, hmem, hsm, hmlt⟩
          · right
            refine ⟨n, ?_, ?_, hlt⟩
            · rw [h1]; exact List.mem_cons_self _ _
            · rw [h1]
          · right
            exact ⟨m, List.mem_cons_of_mem _ hmem, hsm, lt_trans hmlt hlt⟩
        · simp only [scanPool, h0, hlt, if_neg, if_false] at h ⊢
          rcases ih st h with h1 | ⟨m, hmem, hsm, hmlt⟩
          · left; exact h1
          · right; exact ⟨m, List.mem_cons_of_mem _ hmem, hsm, hmlt⟩

/-- If the scan did not `break`, the final `Smallest` is a lower bound
on every reported container count in the pool. -/
theorem scanPool_nobreak_min (pool : List (String × EndpointResult)) :
    ∀ st : SelState, (scanPool st pool).2.2 = false →
      ∀ a n, (a, EndpointResult.containers n) ∈ pool →
        (scanPool st pool).1.smallest ≤ n := by
  induction pool with
  | nil => intro st _ a n hmem; simp at hmem
  | cons e rest ih =>
    intro st h a n hmem
    rcases e with ⟨b, res⟩
    cases res with
    | connectFail =>
      simp only [scanPool] at h ⊢
      rcases List.mem_cons.mp hmem with heq | hmem'
      · exact absurd (congrArg Prod.snd heq) (by simp)
      · exact ih st h a n hmem'
    | listFail =>
      simp only [scanPool] at h ⊢
      rcases List.mem_cons.mp hmem with heq | hmem'
      · exact absurd (congrArg Prod.snd heq) (by simp)
      · exact ih st h a n hmem'
    | containers m =>
      by_cases h0 : m = 0
      · simp [scanPool, h0] at h
      · by_cases hlt : m < st.smallest
        · simp only [scanPool, h0, hlt, if_neg, if_pos, if_false] at h ⊢
          rcases List.mem_cons.mp hmem with heq | hmem'
          · have hn : n = m := by
              have := congrArg Prod.snd heq
              simpa using this
            subst hn
            exact scanPool_smallest_le rest { endpoint := b, smallest := n }
          · exact ih { endpoint := b, smallest := m } h a n hmem'
        · simp only [scanPool, h0, hlt, if_neg, if_false] at h ⊢
          rcases List.mem_cons.mp hmem with heq | hmem'
          · have hn : n = m := by
              have := congrArg Prod.snd heq
              simpa using this
            subst hn
            exact le_trans (scanPool_smallest_le rest st) (Nat.le_of_not_lt hlt)
          · exact ih st h a n hmem'

/-- Once `Endpoint` holds a non-empty address, it stays non-empty
(every overwrite installs a pool address). -/
theorem scanPool_keep_ne (pool : List (String × EndpointResult)) :
    ∀ st : SelState, (∀ p ∈ pool, p.1 ≠ "") → st.endpoint ≠ "" →
      (scanPool st pool).1.endpoint ≠ "" := by
  induction pool with
  | nil => intro st _ h; simpa [scanPool] using h
  | cons e rest ih =>
    intro st hne h
    rcases e with ⟨a, res⟩
    have ha : a ≠ "" := hne (a, res) (List.mem_cons_self _ _)
    have hne' : ∀ p ∈ rest, p.1 ≠ "" := fun p hp => hne p (List.mem_cons_of_mem _ hp)
    cases res with
    | connectFail => simpa only [scanPool] using ih st hne' h
    | listFail => simpa only [scanPool] using ih st hne' h
    | containers n =>
      by_cases h0 : n = 0
      · simpa [scanPool, h0] using ha
      · by_cases hlt : n < st.smallest
        · simp only [scanPool, h0, hlt, if_neg, if_pos, if_false]
          exact ih { endpoint := a, smallest := n } hne' ha
        · simp only [scanPool, h0, hlt, if_neg, if_false]
          exact ih st hne' h

/-- From the fresh state, a pool containing a listable endpoint with a
count below 1024 makes the scan select some endpoint. -/
theorem scanPool_reach (pool : List (String × EndpointResult)) :
    ∀ st : SelState, (∀ p ∈ pool, p.1 ≠ "") → st.endpoint = "" → st.smallest = 1024 →
      (∃ q ∈ pool, ∃ m, q.2 = EndpointResult.containers m ∧ m < 1024) →
      (scanPool st pool).1.endpoint ≠ "" := by
  induction pool with
  | nil => intro st _ _ _ hq; simp at hq
  | cons e rest ih =>
    intro st hne hep hsm hq
    rcases e with ⟨b, res⟩
    have hb : b ≠ "" := hne (b, res) (List.mem_cons_self _ _)
    have hne' : ∀ p ∈ rest, p.1 ≠ "" := fun p hp => hne p (List.mem_cons_of_mem _ hp)
    cases res with
    | connectFail =>
      simp only [scanPool]
      rcases hq with ⟨q, hqmem, m, hqm, hm⟩
      rcases List.mem_cons.mp hqmem with heq | hmem'
      · rw [heq] at hqm; simp at hqm
      · exact ih st hne' hep hsm ⟨q, hmem', m, hqm, hm⟩
    | listFail =>
      simp only [scanPool]
      rcases hq with ⟨q, hqmem, m, hqm, hm⟩
      rcases List.mem_cons.mp hqmem with heq | hmem'
      · rw [heq] at hqm; simp at hqm
      · exact ih st hne' hep hsm ⟨q, hmem', m, hqm, hm⟩
    | containers n =>
      by_cases h0 : n = 0
      · simpa [scanPool, h0] using hb
      · by_cases hlt : n < st.smallest
        · simp only [scanPool, h0, hlt, if_neg, if_pos, if_false]
          exact scanPool_keep_ne rest { endpoint := b, smallest := n } hne' hb
        · simp only [scanPool, h0, hlt, if_neg, if_false]
          rcases hq with ⟨q, hqmem, m, hqm, hm⟩
          rcases List.mem_cons.mp hqmem with heq | hmem'
          · exfalso
            have : EndpointResult.containers n = EndpointResult.containers m := by
              rw [heq] at hqm; simpa using hqm
            have hnm : n = m := by injection this
            rw [hsm] at hlt
            omega
          · exact ih st hne' hep hsm ⟨q, hmem', m, hqm, hm⟩

/-- From the fresh state, if every listable endpoint reports at least
1024 containers the scan never selects anything. -/
theorem scanPool_stay (pool : List (String × EndpointResult)) :
    ∀ st : SelState, st.endpoint = "" → st.smallest = 1024 →
      (∀ p ∈ pool, ∀ m, p.2 = EndpointResult.containers m → 1024 ≤ m) →
      (scanPool st pool).1.endpoint = "" ∧ (scanPool st pool).1.smallest = 1024 := by
  induction pool with
  | nil => intro st hep hsm _; simp [scanPool, hep, hsm]
  | cons e rest ih =>
    intro st hep hsm hbig
    rcases e with ⟨b, res⟩
    have hbig' : ∀ p ∈ rest, ∀ m, p.2 = EndpointResult.containers m → 1024 ≤ m :=
      fun p hp => hbig p (List.mem_cons_of_mem _ hp)
    cases res with
    | connectFail => simpa only [scanPool] using ih st hep hsm hbig'
    | listFail => simpa only [scanPool] using ih st hep hsm hbig'
    | containers n =>
      have hn : 1024 ≤ n := hbig (b, EndpointResult.containers n) (List.mem_cons_self _ _) n rfl
      have h0 : ¬ n = 0 := by omega
      have hlt : ¬ n < st.smallest := by omega
      simp only [scanPool, h0, hlt, if_neg, if_false]
      exact ih st hep hsm hbig'

/-- A zero-count entry after a prefix with no zero-count entries makes
the scan select it and stop after processing exactly the prefix and it. -/
theorem scanPool_zero_first (pre post : List (String × EndpointResult)) (a : String) :
    ∀ st : SelState, (∀ p ∈ pre, p.2 ≠ EndpointResult.containers 0) →
      (scanPool st (pre ++ (a, EndpointResult.containers 0) :: post)).1.endpoint = a ∧
      (scanPool st (pre ++ (a, EndpointResult.containers 0) :: post)).2.1 = pre.length + 1 ∧
      (scanPool st (pre ++ (a, EndpointResult.containers 0) :: post)).2.2 = true := by
  induction pre with
  | nil => intro st _; simp [scanPool]
  | cons e rest ih =>
    intro st hpre
    rcases e with ⟨b, res⟩
    have hres : res ≠ EndpointResult.containers 0 :=
      hpre (b, res) (List.mem_cons_self _ _)
    have hpre' : ∀ p ∈ rest, p.2 ≠ EndpointResult.containers 0 :=
      fun p hp => hpre p (List.mem_cons_of_mem _ hp)
    cases res with
    | connectFail =>
      have h := ih st hpre'
      simp only [List.cons_append, scanPool, List.length_cons]
      exact ⟨h.1, congrArg (· + 1) h.2.1, h.2.2⟩
    | listFail =>
      have h := ih st hpre'
      simp only [List.cons_append, scanPool, List.length_cons]
      exact ⟨h.1, congrArg (· + 1) h.2.1, h.2.2⟩
    | containers n =>
      have h0 : ¬ n = 0 := fun h => hres (by rw [h])
      by_cases hlt : n < st.smallest
      · have h := ih { endpoint := b, smallest := n } hpre'
        simp only [List.cons_append, scanPool, h0, hlt, if_neg, if_pos, if_false,
          List.length_cons]
        exact ⟨h.1, congrArg (· + 1) h.2.1, h.2.2⟩
      · have h := ih st hpre'
        simp only [List.cons_append, scanPool, h0, hlt, if_neg, if_false, List.length_cons]
        exact ⟨h.1, congrArg (· + 1) h.2.1, h.2.2⟩

/-! ## Claims about the endpoint selector -/

/-- Claim C1, amended.  For every pool of endpoints (with non-empty
addresses), the interactive-mode selector never chooses an endpoint
whose running-container count exceeds that of the minimum-count
reachable endpoint, and it produces the "No acceptable endpoints found"
outcome if and only if every endpoint fails to connect, fails to list,
or is reachable with at least 1024 running containers (the `Smallest`
sentinel).  The original claim's "none found iff every endpoint fails"
is refuted by `selector_none_iff_cex`. -/
theorem selector_minimal_and_none_iff (pool : List (String × EndpointResult))
    (hne : ∀ p ∈ pool, p.1 ≠ "") :
    ((scanPool initSel pool).1.endpoint ≠ "" →
      ∃ n, ((scanPool initSel pool).1.endpoint, EndpointResult.containers n) ∈ pool ∧
        ∀ a m, (a, EndpointResult.containers m) ∈ pool → n ≤ m) ∧
    ((scanPool initSel pool).1.endpoint = "" ↔
      ∀ p ∈ pool, ∀ m, p.2 = EndpointResult.containers m → 1024 ≤ m) := by
  constructor
  · intro hch
    cases hbrk : (scanPool initSel pool).2.2 with
    | true =>
      exact ⟨0, scanPool_break_mem pool initSel hbrk, fun a m _ => Nat.zero_le m⟩
    | false =>
      rcases scanPool_nobreak_state pool initSel hbrk with h1 | ⟨n, hmem, hsm, _⟩
      · exact absurd (congrArg SelState.endpoint h1) hch
      · exact ⟨n, hmem, fun a m hm => hsm ▸ scanPool_nobreak_min pool initSel hbrk a m hm⟩
  · constructor
    · intro h0 p hp m hpm
      by_contra hmlt
      exact scanPool_reach pool initSel hne rfl rfl
        ⟨p, hp, m, hpm, Nat.lt_of_not_le hmlt⟩ h0
    · intro hbig
      exact (scanPool_stay pool initSel rfl rfl hbig).1

/-- A one-endpoint pool whose endpoint is reachable and listable with
exactly 1024 running containers. -/
def bigPool : List (String × EndpointResult) := [("http://a:4243", EndpointResult.containers 1024)]

/-- Claim C1, counterexample.  In `bigPool` the sole endpoint is
reachable and listable, yet the selector ends with `Endpoint == ""` and
`main` hits the fatal "No acceptable endpoints found" branch, so "none
found iff every endpoint fails to connect or fails to list" is false as
stated. -/
theorem selector_none_iff_cex :
    (scanPool initSel bigPool).1.endpoint = "" ∧
    bigPool.any (fun p => listable p.2) = true := by decide

/-- A concrete pool with one unreachable endpoint and one reachable
endpoint with five containers. -/
def mixedPool : List (String × EndpointResult) :=
  [("http://a:4243", EndpointResult.connectFail), ("http://b:4243", EndpointResult.containers 5)]

/-- Witness for `selector_minimal_and_none_iff` at `mixedPool`. -/
theorem selector_minimal_witness :
    (scanPool initSel mixedPool).1.endpoint ≠ "" ∧
    (∃ n, ((scanPool initSel mixedPool).1.endpoint, EndpointResult.containers n) ∈ mixedPool ∧
      ∀ a m, (a, EndpointResult.containers m) ∈ mixedPool → n ≤ m) :=
  ⟨by decide, (selector_minimal_and_none_iff mixedPool (by decide)).1 (by decide)⟩

/-- Claim C2.  If the pool is a prefix with no zero-count endpoint,
then a reachable endpoint reporting zero containers, then anything: the
selector selects that endpoint, processes exactly the prefix and it
(no further connections or listings), and leaves the loop via `break`. -/
theorem selector_zero_stops (pre post : List (String × EndpointResult)) (a : String)
    (hpre : ∀ p ∈ pre, p.2 ≠ EndpointResult.containers 0) :
    (scanPool initSel (pre ++ (a, EndpointResult.containers 0) :: post)).1.endpoint = a ∧
    (scanPool initSel (pre ++ (a, EndpointResult.containers 0) :: post)).2.1 = pre.length + 1 ∧
    (scanPool initSel (pre ++ (a, EndpointResult.containers 0) :: post)).2.2 = true :=
  scanPool_zero_first pre post a initSel hpre

/-- Witness for `selector_zero_stops`: the spec's end-to-end example, a
pool reporting 5, 0 and 3 containers; the second endpoint is selected
after two queries and the third endpoint is never queried. -/
theorem selector_zero_stops_witness :
    (scanPool initSel ([("http://a:4243", EndpointResult.containers 5)] ++
      ("http://b:4243", EndpointResult.containers 0) ::
        [("http://c:4243", EndpointResult.containers 3)])).1.endpoint = "http://b:4243" ∧
    (scanPool initSel ([("http://a:4243", EndpointResult.containers 5)] ++
      ("http://b:4243", EndpointResult.containers 0) ::
        [("http://c:4243", EndpointResult.containers 3)])).2.1 = 2 ∧
    (scanPool initSel ([("http://a:4243", EndpointResult.containers 5)] ++
      ("http://b:4243", EndpointResult.containers 0) ::
        [("http://c:4243", EndpointResult.containers 3)])).2.2 = true :=
  selector_zero_stops [("http://a:4243", EndpointResult.containers 5)]
    [("http://c:4243", EndpointResult.containers 3)] "http://b:4243" (by decide)

/-- Claim C9.  The best-count threshold starts at the hard-coded
sentinel 1024: if every reachable endpoint reports at least 1024
containers the selector selects nothing (interactive mode then fails
with "No acceptable endpoints found"), and whenever the selector does
choose an endpoint, that endpoint reported strictly fewer than 1024
containers. -/
theorem selector_sentinel_1024 (pool : List (String × EndpointResult)) :
    ((∀ p ∈ pool, ∀ m, p.2 = EndpointResult.containers m → 1024 ≤ m) →
      (scanPool initSel pool).1.endpoint = "") ∧
    ((scanPool initSel pool).1.endpoint ≠ "" →
      ∃ n, ((scanPool initSel pool).1.endpoint, EndpointResult.containers n) ∈ pool ∧
        n < 1024) := by
  constructor
  · intro hbig
    exact (scanPool_stay pool initSel rfl rfl hbig).1
  · intro hch
    cases hbrk : (scanPool initSel pool).2.2 with
    | true =>
      exact ⟨0, scanPool_break_mem pool initSel hbrk, by omega⟩
    | false =>
      rcases scanPool_nobreak_state pool initSel hbrk with h1 | ⟨n, hmem, _, hlt⟩
      · exact absurd (congrArg SelState.endpoint h1) hch
      · exact ⟨n, hmem, by simpa [initSel] using hlt⟩

/-- Witness for `selector_sentinel_1024`: a reachable endpoint with
2000 containers is never selected and the run reports no acceptable
endpoints. -/
theorem selector_sentinel_witness :
    (scanPool initSel [("http://a:4243", EndpointResult.containers 2000)]).1.endpoint = "" :=
  (selector_sentinel_1024 [("http://a:4243", EndpointResult.containers 2000)]).1 (by
    rintro p hp m hm
    rw [List.mem_singleton] at hp
    subst hp
    injection hm with h
    omega)

/-! ## Lemmas about the readiness loop -/

/-- The loop returns an index within the processed attempt list. -/
theorem waitGo_some_lt (l : List Attempt) :
    ∀ buf k, waitGo buf l = some k → k < l.length := by
  induction l with
  | nil => intro buf k h; simp [waitGo] at h
  | cons a rest ih =>
    intro buf k h
    cases a with
    | dialFail =>
      simp only [waitGo] at h
      rcases Option.map_eq_some'.mp h with ⟨k', hk', rfl⟩
      simpa using Nat.succ_lt_succ (ih buf k' hk')
    | dialOk r =>
      simp only [waitGo] at h
      by_cases hc : (r.ok && containsSub sshPat (writeBuf buf r.bytes)) = true
      · rw [if_pos hc] at h
        cases h
        simp
      · rw [if_neg hc] at h
        rcases Option.map_eq_some'.mp h with ⟨k', hk', rfl⟩
        simpa using Nat.succ_lt_succ (ih _ k' hk')

/-- If the loop returned on iteration `k`, iteration `k` satisfied the
return condition: dial ok, read ok, and the mutated shared buffer
contains "SSH". -/
theorem waitGo_some_good (l : List Attempt) :
    ∀ buf k, waitGo buf l = some k → goodAt buf l k := by
  induction l with
  | nil => intro buf k h; simp [waitGo] at h
  | cons a rest ih =>
    intro buf k h
    cases a with
    | dialFail =>
      simp only [waitGo] at h
      rcases Option.map_eq_some'.mp h with ⟨k', hk', rfl⟩
      rcases ih buf k' hk' with ⟨r, hget, hok, hcon⟩
      exact ⟨r, by simpa using hget, hok, by simpa [bufAt] using hcon⟩
    | dialOk r0 =>
      simp only [waitGo] at h
      by_cases hc : (r0.ok && containsSub sshPat (writeBuf buf r0.bytes)) = true
      · rw [if_pos hc] at h
        cases h
        rw [Bool.and_eq_true] at hc
        exact ⟨r0, rfl, hc.1, hc.2⟩
      · rw [if_neg hc] at h
        rcases Option.map_eq_some'.mp h with ⟨k', hk', rfl⟩
        rcases ih (writeBuf buf r0.bytes) k' hk' with ⟨r, hget, hok, hcon⟩
        exact ⟨r, by simpa using hget, hok, by simpa [bufAt] using hcon⟩

/-- If the loop returned on iteration `k`, no earlier iteration
satisfied the return condition. -/
theorem waitGo_some_min (l : List Attempt) :
    ∀ buf k, waitGo buf l = some k → ∀ j, j < k → ¬ goodAt buf l j := by
  induction l with
  | nil => intro buf k h; simp [waitGo] at h
  | cons a rest ih =>
    intro buf k h j hj hg
    cases a with
    | dialFail =>
      simp only [waitGo] at h
      rcases Option.map_eq_some'.mp h with ⟨k', hk', rfl⟩
      cases j with
      | zero =>
        rcases hg with ⟨r, hget, _, _⟩
        simp at hget
      | succ j' =>
        rcases hg with ⟨r, hget, hok, hcon⟩
        exact ih buf k' hk' j' (Nat.lt_of_succ_lt_succ hj)
          ⟨r, by simpa using hget, hok, by simpa [bufAt] using hcon⟩
    | dialOk r0 =>
      simp only [waitGo] at h
      by_cases hc : (r0.ok && containsSub sshPat (writeBuf buf r0.bytes)) = true
      · rw [if_pos hc] at h
        cases h
        exact absurd hj (Nat.not_lt_zero j)
      · rw [if_neg hc] at h
        rcases Option.map_eq_some'.mp h with ⟨k', hk', rfl⟩
        cases j with
        | zero =>
          rcases hg with ⟨r, hget, hok, hcon⟩
          have hr : r0 = r := by
            have := Option.some.inj hget
            injection this
          subst hr
          refine hc ?_
          rw [Bool.and_eq_true]
          exact ⟨hok, by simpa [bufAt] using hcon⟩
        | succ j' =>
          rcases hg with ⟨r, hget, hok, hcon⟩
          exact ih (writeBuf buf r0.bytes) k' hk' j' (Nat.lt_of_succ_lt_succ hj)
            ⟨r, by simpa using hget, hok, by simpa [bufAt] using hcon⟩

/-- If the loop exhausted its attempts, no iteration satisfied the
return condition. -/
theorem waitGo_none (l : List Attempt) :
    ∀ buf, waitGo buf l = none → ∀ j, j < l.length → ¬ goodAt buf l j := by
  induction l with
  | nil => intro buf _ j hj; simp at hj
  | cons a rest ih =>
    intro buf h j hj hg
    cases a with
    | dialFail =>
      simp only [waitGo, Option.map_eq_none'] at h
      cases j with
      | zero =>
        rcases hg with ⟨r, hget, _, _⟩
        simp at hget
      | succ j' =>
        rcases hg with ⟨r, hget, hok, hcon⟩
        exact ih buf h j' (by simpa using Nat.lt_of_succ_lt_succ hj)
          ⟨r, by simpa using hget, hok, by simpa [bufAt] using hcon⟩
    | dialOk r0 =>
      simp only [waitGo] at h
      by_cases hc : (r0.ok && containsSub sshPat (writeBuf buf r0.bytes)) = true
      · rw [if_pos hc] at h
        cases h
      · rw [if_neg hc, Option.map_eq_none'] at h
        cases j with
        | zero =>
          rcases hg with ⟨r, hget, hok, hcon⟩
          have hr : r0 = r := by
            have := Option.some.inj hget
            injection this
          subst hr
          refine hc ?_
          rw [Bool.and_eq_true]
          exact ⟨hok, by simpa [bufAt] using hcon⟩
        | succ j' =>
          rcases hg with ⟨r, hget, hok, hcon⟩
          exact ih (writeBuf buf r0.bytes) h j' (by simpa using Nat.lt_of_succ_lt_succ hj)
            ⟨r, by simpa using hget, hok, by simpa [bufAt] using hcon⟩

/-! ## Claims about the readiness waiter -/

/-- Claim C3, amended.  The readiness waiter returns successfully on
the first iteration (of at most 60) whose TCP connection succeeds,
whose read succeeds, and after whose read the 20-byte buffer — which
retains bytes left by earlier reads — contains the substring "SSH"; if
no iteration within the first 60 satisfies that condition it fails
fatally with a message naming the host:port, and it never makes a 61st
attempt.  The original claim judged each attempt by the bytes its own
read delivered; `wait_claim_cex` refutes that reading. -/
theorem wait_first_success (attempts : List Attempt) :
    (∀ i, wait attempts = some i →
      i < 60 ∧ goodAt initBuf (attempts.take 60) i ∧
        ∀ j, j < i → ¬ goodAt initBuf (attempts.take 60) j) ∧
    (wait attempts = none →
      ∀ j, j < (attempts.take 60).length → ¬ goodAt initBuf (attempts.take 60) j) ∧
    (∀ host port, waitFatalMsg host port = host ++ ":" ++ port ++ " never became available") := by
  refine ⟨?_, ?_, fun _ _ => rfl⟩
  · intro i h
    have hlt : i < (attempts.take 60).length := waitGo_some_lt _ _ _ h
    have hlen : (attempts.take 60).length ≤ 60 := by
      rw [List.length_take]
      exact Nat.min_le_left _ _
    exact ⟨Nat.lt_of_lt_of_le hlt hlen, waitGo_some_good _ _ _ h, waitGo_some_min _ _ _ h⟩
  · intro h
    exact waitGo_none _ _ h

/-- Witness for `wait_first_success`: a single attempt that reads an
"SSH" banner makes the waiter return on iteration 0. -/
theorem wait_first_success_witness :
    0 < 60 ∧
    goodAt initBuf ([Attempt.dialOk { ok := true, bytes := ['S', 'S', 'H', '-', '2'] }].take 60) 0 ∧
    ∀ j, j < 0 →
      ¬ goodAt initBuf ([Attempt.dialOk { ok := true, bytes := ['S', 'S', 'H', '-', '2'] }].take 60) j :=
  (wait_first_success [Attempt.dialOk { ok := true, bytes := ['S', 'S', 'H', '-', '2'] }]).1 0
    (by decide)

/-- Claim C3, counterexample.  On the stale-buffer run the waiter
returns successfully (on iteration 1), although no attempt's own read
both succeeded and delivered bytes containing "SSH" — so the waiter
neither returned on such an attempt nor failed fatally in their
absence, refuting the claim as stated. -/
theorem wait_claim_cex :
    wait staleAttempts = some 1 ∧
    staleAttempts.all (fun a => !attemptReadHasSSH a) = true := by decide

/-- Claim C10.  The 20-byte buffer is shared across iterations, so the
waiter can declare success on an attempt whose own read did not deliver
"SSH": on `staleAttempts` it returns on iteration 1 even though that
iteration's read delivered only bytes without "SSH" (the match uses the
stale "SH" tail left by iteration 0's read). -/
theorem wait_stale_buffer :
    wait staleAttempts = some 1 ∧
    staleAttempts.get? 1 = some stale1 ∧
    containsSub sshPat (attemptBytes stale1) = false ∧
    containsSub sshPat (attemptBytes stale0) = false := by decide



/-! ## Claims about configuration loading, the reaper, and the tail of main -/

/-- Claim C5, counterexample.  A present-but-malformed configuration
file does not produce the built-in defaults: the unmarshal error is
ignored (line 52) and the zero-valued struct is returned, with no
endpoints, empty image and user, and max_age 0. -/
theorem getconfig_malformed_cex :
    getconfig FileState.malformed ≠ defaultConfig ∧
    getconfig FileState.malformed = zeroConfig := by decide

/-- Claim C5, amended.  The config loader never surfaces a failure (it
is total): a missing file yields the built-in defaults (endpoints
["http://127.0.0.1:4243"], image "ssh", user "ubuntu", max_age 86400);
a present-but-malformed file yields the zero-valued Config, not the
defaults; well-formed content is returned as parsed. -/
theorem getconfig_never_fails :
    getconfig FileState.missing = defaultConfig ∧
    getconfig FileState.malformed = zeroConfig ∧
    ∀ c, getconfig (FileState.wellFormed c) = c :=
  ⟨rfl, rfl, fun _ => rfl⟩

/-- Claim C6.  The reaper's name check accepts exactly the names that
split on "-" into two parts whose second part parses as a base-10
64-bit integer: it accepts "alice-1700000000" and rejects "alice",
"alice-1700000000-extra" and "alice-abc"; a container whose single name
is rejected, or which has zero or several names, is skipped silently. -/
theorem nameCheck_shape :
    (∀ name : String, (nameCheck name).isSome = true ↔
      ∃ a b, splitDash name.data = [a, b] ∧ (parseInt64L b).isSome = true) ∧
    nameCheck "alice-1700000000" = some 1700000000 ∧
    nameCheck "alice" = none ∧
    nameCheck "alice-1700000000-extra" = none ∧
    nameCheck "alice-abc" = none ∧
    (∀ maxAge now cid name, nameCheck name = none →
      reapDecide maxAge now { id := cid, names := [name] } = ReapAction.skip) ∧
    (∀ maxAge now c, c.names.length ≠ 1 → reapDecide maxAge now c = ReapAction.skip) := by
  refine ⟨?_, by decide, by decide, by decide, by decide, ?_, ?_⟩
  · intro name
    unfold nameCheck
    rcases hs : splitDash name.data with _ | ⟨a, _ | ⟨b, _ | ⟨c, cs⟩⟩⟩ <;> simp
    constructor
    · intro h
      exact ⟨a, b, ⟨rfl, rfl⟩, h⟩
    · rintro ⟨a1, b1, ⟨rfl, rfl⟩, h⟩
      exact h
  · intro maxAge now cid name h
    unfold reapDecide
    simp [h]
  · intro maxAge now c hlen
    unfold reapDecide
    rcases c with ⟨cid, _ | ⟨n1, _ | ⟨n2, ns⟩⟩⟩ <;> simp_all

/-- Witness for `nameCheck_shape`: a container named "alice-abc" is
skipped. -/
theorem nameCheck_shape_witness :
    reapDecide 86400 1700000000 { id := "cid", names := ["alice-abc"] } = ReapAction.skip :=
  nameCheck_shape.2.2.2.2.2.1 86400 1700000000 "cid" "alice-abc" (by decide)

/-- Claim C7.  For a container whose single name parses to creation
timestamp `created`: it is kept whenever `now - created ≤ max_age`
(the boundary `now - created = max_age` is kept, the comparison being
strict), it is stopped and removed whenever `max_age ≠ 0` and
`now - created > max_age`, and with `max_age = 0` reaping is disabled
and the container is always kept. -/
theorem reap_age_threshold (maxAge now created : Int) (cid name : String)
    (hp : nameCheck name = some created) :
    (now - created ≤ maxAge →
      reapDecide maxAge now { id := cid, names := [name] } = ReapAction.skip) ∧
    (maxAge ≠ 0 → maxAge < now - created →
      reapDecide maxAge now { id := cid, names := [name] } = ReapAction.reap) ∧
    (maxAge = 0 →
      reapDecide maxAge now { id := cid, names := [name] } = ReapAction.skip) := by
  unfold reapDecide
  simp only [hp]
  refine ⟨?_, ?_, ?_⟩
  · intro hle
    rw [if_neg]
    rintro ⟨_, hgt⟩
    omega
  · intro h0 hgt
    rw [if_pos ⟨h0, hgt⟩]
  · intro h0
    rw [if_neg]
    rintro ⟨h0', _⟩
    exact h0' h0

/-- Witness for `reap_age_threshold`: with max_age 86400 and a
container named "bob-100", at `now - created = 86400` the container is
kept and at `now - created = 86401` it is reaped. -/
theorem reap_age_threshold_witness :
    reapDecide 86400 86500 { id := "cid", names := ["bob-100"] } = ReapAction.skip ∧
    reapDecide 86400 86501 { id := "cid", names := ["bob-100"] } = ReapAction.reap :=
  ⟨(reap_age_threshold 86400 86500 100 "cid" "bob-100" (by decide)).1 (by decide),
   (reap_age_threshold 86400 86501 100 "cid" "bob-100" (by decide)).2.1 (by decide) (by decide)⟩

/-- Claim C4, code bug.  When the local ssh client exits with a
failure, `connect` calls `log.Fatal` (line 65): the failure is reported
but the process terminates immediately, so `StopContainer` and
`RemoveContainer` (lines 192-199) never run, contradicting the spec's
requirement that session failure never prevent the teardown. -/
theorem session_failure_skips_teardown :
    Event.sshFailureFatal ∈
      mainTail { inspectOk := true, sshOk := false, stopOk := true, removeOk := true } ∧
    Event.stopCalled ∉
      mainTail { inspectOk := true, sshOk := false, stopOk := true, removeOk := true } ∧
    Event.removeCalled ∉
      mainTail { inspectOk := true, sshOk := false, stopOk := true, removeOk := true } := by
  decide

/-- Claim C8.  When `InspectContainer` fails, the error is printed with
`fmt.Printf` (line 184) and the program does not terminate at that
step: the very next events are the report and the port lookup
(line 186), whose behaviour on a failed inspection is then undefined. -/
theorem inspect_failure_nonfatal (inp : TailInputs) (h : inp.inspectOk = false) :
    (mainTail inp).take 2 = [Event.inspectFailureReported, Event.portLookup] := by
  rcases inp with ⟨i, s, st, r⟩
  simp only at h
  subst h
  cases s <;> cases st <;> cases r <;> decide

/-- Witness for `inspect_failure_nonfatal`. -/
theorem inspect_failure_nonfatal_witness :
    (mainTail { inspectOk := false, sshOk := true, stopOk := true, removeOk := true }).take 2 =
      [Event.inspectFailureReported, Event.portLookup] :=
  inspect_failure_nonfatal { inspectOk := false, sshOk := true, stopOk := true, removeOk := true }
    rfl
